import Mathlib

/-!
Verification development for the MediX automation scripts.

The definitions below are a shallow embedding of the Python sources:
`forward_script.py` (identifier parsing, task-file parsing, range
expansion, the rate-limited dispatch loop with its logging and error
handling) and `send_polls.py` (MarkdownV2 escaping for the log sink).
Remote effects (Telegram calls, sleeps, RNG draws, log publishes) are
modelled as an explicit event trace threaded through a state record,
with the remote world supplied as an environment of oracle functions.
-/

namespace MediX

/-! ### Identifier parsing (`forward_script.parse_id`) -/

/-- Python `str.strip()`: drop whitespace from both ends. -/
def pyStrip (l : List Char) : List Char :=
  ((l.dropWhile Char.isWhitespace).reverse.dropWhile Char.isWhitespace).reverse

/-- `pyStrip` lifted to `String`. -/
def pyStripS (s : String) : String := String.mk (pyStrip s.toList)

/-- Python `str.lower()` (ASCII case folding suffices for the keys used). -/
def pyLowerS (s : String) : String := String.mk (s.toList.map Char.toLower)

/-- Python `str.isdigit` on an already-stripped string: nonempty and all
decimal digits. -/
def pyIsDigit (s : String) : Bool :=
  !s.isEmpty && s.toList.all Char.isDigit

/-- Decimal value of a digit list. -/
def decVal (l : List Char) : Nat :=
  l.foldl (fun a c => a * 10 + (c.toNat - 48)) 0

/-- Python `value.split(chr(47))[-1]`: the suffix after the last slash. -/
def lastSegment (l : List Char) : List Char :=
  (l.reverse.takeWhile (fun c => c != '/')).reverse

/-- `parse_id` from `forward_script.py`: accepts a raw decimal number, or a
slash-delimited token whose last segment is a decimal number; anything else
raises `ValueError`. -/
def parse_id (value : String) : Except String Nat :=
  let v := pyStripS value
  if pyIsDigit v then
    Except.ok (decVal v.toList)
  else if v.toList.contains '/' then
    if pyIsDigit (String.mk (lastSegment v.toList)) then
      Except.ok (decVal (lastSegment v.toList))
    else
      Except.error ("Invalid message link format: " ++ v)
  else
    Except.error ("Invalid format for message ID: " ++ v)

/-! ### Task-file parsing (`forward_script.main`, section 2) -/

/-- A parsed task descriptor: the elements of the `tasks` list built by
`main` (dicts with `type` either `message` or `range`). -/
inductive Task where
  | message (content : String)
  | range (start : Nat) (stop : Nat)
  deriving DecidableEq, Repr

/-- The action a single line of `range.txt` triggers in the parse loop:
skipped, or one of the three recognized `key: value` forms. -/
inductive LineAct where
  | skip
  | message (value : String)
  | start (value : String)
  | endKey (value : String)
  deriving DecidableEq, Repr

/-- Python `line.split(chr(58), 1)` restricted to the two-part case:
splits at the first colon, `none` when there is no colon. -/
def splitFirstColon : List Char → Option (List Char × List Char)
  | [] => none
  | c :: rest =>
    if c = ':' then some ([], rest)
    else
      match splitFirstColon rest with
      | none => none
      | some (a, b) => some (c :: a, b)

/-- Line classification from the parse loop of `main`: strip, skip blanks
and comment lines, skip lines with no colon, otherwise dispatch on the
stripped lower-cased key; unrecognized keys are also skipped. -/
def classifyLine (raw : String) : LineAct :=
  let line := pyStrip raw.toList
  if line.isEmpty then LineAct.skip
  else if line.head? = some '#' then LineAct.skip
  else
    match splitFirstColon line with
    | none => LineAct.skip
    | some (k, v) =>
      let key := pyLowerS (pyStripS (String.mk k))
      let value := pyStripS (String.mk v)
      if key = "message" then LineAct.message value
      else if key = "start" then LineAct.start value
      else if key = "end" then LineAct.endKey value
      else LineAct.skip

/-- The parse loop of `main`: threads the pending `start_id` through the
line actions, emitting `Task`s in file order.  A `parse_id` failure
propagates out of the loop (it is caught by the fatal-error handler). -/
def scanActs : Option Nat → List LineAct → Except String (List Task)
  | _, [] => Except.ok []
  | p, LineAct.skip :: r => scanActs p r
  | p, LineAct.message c :: r =>
    (scanActs p r).map (fun ts => Task.message c :: ts)
  | _, LineAct.start v :: r =>
    (parse_id v).bind (fun s => scanActs (some s) r)
  | p, LineAct.endKey v :: r =>
    match p with
    | some s =>
      (parse_id v).bind (fun e =>
        (scanActs none r).map (fun ts => Task.range s e :: ts))
    | none => scanActs none r

/-- Section 2 of `main`: parse all lines of `range.txt`; the run aborts
fatally (`Except.error`) when a `parse_id` call raises or when the
resulting task list is empty. -/
def parseTasks (lines : List String) : Except String (List Task) :=
  match scanActs none (lines.map classifyLine) with
  | Except.error e => Except.error e
  | Except.ok ts =>
    if ts.isEmpty then Except.error "range.txt contains no valid tasks."
    else Except.ok ts

/-! ### Range expansion (the batch loop inside `main`) -/

/-- `MIN_DELAY_SECONDS` from `forward_script.py`. -/
def MIN_DELAY_SECONDS : Rat := 1

/-- `MAX_DELAY_SECONDS` from `forward_script.py`. -/
def MAX_DELAY_SECONDS : Rat := 2

/-- `BATCH_SIZE` from `forward_script.py`. -/
def BATCH_SIZE : Nat := 100

/-- One iteration of the batch loop per unit of fuel: the batch starting
at `a` is `list(range(batch_start, batch_end + 1))` with
`batch_end = min(batch_start + bs - 1, b)`, and the loop steps to
`a + bs`. -/
def expandGo (b bs : Nat) : Nat → Nat → List (List Nat)
  | 0, _ => []
  | n + 1, a => List.range' a (min (a + bs - 1) b + 1 - a) :: expandGo b bs n (a + bs)

/-- The batch decomposition performed by
`for batch_start in range(start, end + 1, BATCH_SIZE)` together with
`batch_end = min(batch_start + BATCH_SIZE - 1, end)` and
`batch_ids = list(range(batch_start, batch_end + 1))`.  The Python
`range` object iterates exactly `ceil((b + 1 - a) / bs)` times, which is
the fuel handed to `expandGo`. -/
def expandRange (a b bs : Nat) : List (List Nat) :=
  if 0 < bs then expandGo b bs ((b + 1 - a + bs - 1) / bs) a else []

/-! ### The dispatch loop (`forward_script.main`, sections 3-5)

The loop's observable behaviour is recorded as an event trace: every
remote call through the client (log publishes, `get_messages` fetches,
`forward_to` relays, destination `send_message`s) and every
`asyncio.sleep` becomes one event.  The remote world (which source ids
resolve to which messages, which relay calls raise, the RNG stream for
`random.uniform`, whether each log publish is delivered) is an
environment of oracle functions. -/

/-- The `stats` dictionary initialised in section 3 of `main`. -/
structure Stats where
  polls_forwarded : Nat
  non_polls_skipped : Nat
  errors : Nat
  deriving DecidableEq, Repr

/-- An exception escaping a remote call: `FloodWaitError` (with its
`seconds` payload) or any other exception (identified by name). -/
inductive Exc where
  | flood (seconds : Nat)
  | err (name : String)
  deriving DecidableEq, Repr

/-- One observable step of the run. `logPub` is a `send_log` call (the
`delivered` flag tells whether the log-channel send itself succeeded —
`send_log` swallows its own failures); `summaryPub` is the final-report
`send_log`; `fetch` is `client.get_messages`; `fwd` is
`message.forward_to`; `sendMsg` is `client.send_message` to the
destination; `sleep` is `asyncio.sleep`. -/
inductive Event where
  | logPub (text : String) (delivered : Bool)
  | summaryPub (final : Stats)
  | fetch (ids : List Nat)
  | fwd (srcId : Nat)
  | sendMsg (content : String)
  | sleep (d : Rat)
  deriving DecidableEq, Repr

/-- `true` on the events that are calls to the remote platform (everything
except a local `asyncio.sleep`). -/
def Event.isRemoteCall : Event → Bool
  | Event.sleep _ => false
  | _ => true

/-- `true` on the content-bearing calls: fetching source messages,
forwarding a poll, or sending a literal message to the destination. -/
def Event.isContent : Event → Bool
  | Event.fetch _ => true
  | Event.fwd _ => true
  | Event.sendMsg _ => true
  | _ => false

/-- `true` exactly on the final-report publish. -/
def Event.isSummary : Event → Bool
  | Event.summaryPub _ => true
  | _ => false

/-- `true` exactly on sleeps. -/
def Event.isSleep : Event → Bool
  | Event.sleep _ => true
  | _ => false

/-- The remote world: `source id` is `none` when `get_messages` resolves
the id to `None`, otherwise `some isPoll`; `relay id` is the outcome of
`forward_to` on that message; `sendRes c` is the outcome of sending the
literal message `c`; `delays` is the stream of `random.uniform(1, 2)`
draws; `sink` tells whether the n-th `send_log` reaches the log channel. -/
structure Env where
  source : Nat → Option Bool
  relay : Nat → Option Exc
  sendRes : String → Option Exc
  delays : Nat → Rat
  sink : Nat → Bool

/-- The run state: the `stats` counters plus the oracle cursors (how many
RNG draws and how many `send_log` calls have happened) and the event
trace so far. -/
structure St where
  stats : Stats
  rngIx : Nat
  logIx : Nat
  events : List Event
  deriving DecidableEq, Repr

/-- Append one event. -/
def St.emit (st : St) (e : Event) : St :=
  { st with events := st.events ++ [e] }

/-- `send_log`: one remote publish attempt; its own failure is swallowed
(the `delivered` flag merely records it). -/
def sendLog (env : Env) (st : St) (text : String) : St :=
  { st with
    logIx := st.logIx + 1,
    events := st.events ++ [Event.logPub text (env.sink st.logIx)] }

/-- Text of the per-task header log message. -/
def headerText (i n : Nat) (t : Task) : String :=
  let kind := match t with
    | Task.message _ => "MESSAGE"
    | Task.range _ _ => "RANGE"
  s!"Executing Task {i}/{n}: {kind}"

/-- Text of the range-info log message. -/
def rangeText (a b : Nat) : String :=
  s!"Processing poll range {a}-{b} in batches of 100."

/-- Text of the per-batch log message. -/
def batchText (a b n : Nat) : String :=
  s!"Processing batch {a}-{b}, found {n} valid messages."

/-- Text of the custom-message confirmation log. -/
def sentText (c : String) : String :=
  s!"Custom Message Sent: {c}"

/-- Text of the `FloodWaitError` warning log. -/
def floodText (w : Nat) : String :=
  s!"FloodWaitError. Pausing script for {w} seconds."

/-- Text of the unexpected-error log for task `i`. -/
def errText (i : Nat) (name : String) : String :=
  s!"Error on Task {i}: {name}"

/-- The inner `for message in valid_messages` loop: a `random.uniform`
draw is consumed for every valid message; polls are forwarded (an
exception from `forward_to` aborts the whole task) and, on success,
counted and followed by the drawn sleep; non-polls only bump the skip
counter. -/
def runValid (env : Env) : St → List (Nat × Bool) → St × Option Exc
  | st, [] => (st, none)
  | st, (mid, isPoll) :: rest =>
    let d := env.delays st.rngIx
    let st := { st with rngIx := st.rngIx + 1 }
    if isPoll then
      let st := st.emit (Event.fwd mid)
      match env.relay mid with
      | some e => (st, some e)
      | none =>
        let st := { st with stats :=
          { st.stats with polls_forwarded := st.stats.polls_forwarded + 1 } }
        runValid env (st.emit (Event.sleep d)) rest
    else
      runValid env
        { st with stats :=
          { st.stats with non_polls_skipped := st.stats.non_polls_skipped + 1 } }
        rest

/-- The `for batch_start in range(...)` loop: fetch the batch, keep the
messages that resolved (`valid_messages = [m for m in messages if m]`),
log when the batch is non-empty, run the items, then pause one second
between batches. -/
def runBatches (env : Env) : St → List (List Nat) → St × Option Exc
  | st, [] => (st, none)
  | st, ids :: rest =>
    let st := st.emit (Event.fetch ids)
    let valid := ids.filterMap (fun i => (env.source i).map (fun p => (i, p)))
    let st := if valid.isEmpty then st
      else sendLog env st (batchText (ids.headD 0) (ids.getLastD 0) valid.length)
    match runValid env st valid with
    | (st, some e) => (st, some e)
    | (st, none) => runBatches env (st.emit (Event.sleep 1)) rest

/-- The body of the per-task `try:` block. -/
def dispatchTask (env : Env) (st : St) : Task → St × Option Exc
  | Task.message content =>
    let st := st.emit (Event.sendMsg content)
    match env.sendRes content with
    | some e => (st, some e)
    | none =>
      let st := { st with stats :=
        { st.stats with polls_forwarded := st.stats.polls_forwarded + 1 } }
      (sendLog env st (sentText content), none)
  | Task.range a b =>
    let st := sendLog env st (rangeText a b)
    runBatches env st (expandRange a b BATCH_SIZE)

/-- The two `except` clauses of the task loop: a `FloodWaitError` bumps
the error counter, logs a warning and sleeps `e.seconds + 5`; any other
exception bumps the error counter and logs the error. -/
def handleExc (env : Env) (st : St) (i : Nat) : Exc → St
  | Exc.flood secs =>
    let st := { st with stats := { st.stats with errors := st.stats.errors + 1 } }
    let st := sendLog env st (floodText (secs + 5))
    st.emit (Event.sleep ((secs + 5 : Nat) : Rat))
  | Exc.err name =>
    let st := { st with stats := { st.stats with errors := st.stats.errors + 1 } }
    sendLog env st (errText i name)

/-- One iteration of `for i, task in enumerate(tasks, 1)`: log the task
header, run the task body, and convert an escaping exception through the
`except` clauses. -/
def runTask (env : Env) (i n : Nat) (t : Task) (st : St) : St :=
  let st := sendLog env st (headerText i n t)
  match dispatchTask env st t with
  | (st, none) => st
  | (st, some e) => handleExc env st i e

/-- The task loop itself. -/
def runTasks (env : Env) (n : Nat) : Nat → St → List Task → St
  | _, st, [] => st
  | i, st, t :: rest => runTasks env n (i + 1) (runTask env i n t st) rest

/-- The state at the top of section 3 of `main`: zeroed counters, fresh
oracle cursors, empty trace. -/
def initSt : St := ⟨⟨0, 0, 0⟩, 0, 0, []⟩

/-- Sections 3-5 of `main` after the channels resolved successfully: the
three startup log publishes, the task loop, and the final report (one
more `send_log`, carrying the final counters). -/
def runMain (env : Env) (tasks : List Task) : St :=
  let st := sendLog env initSt "Poll Forwarder Initialized"
  let st := sendLog env st "Client Connected"
  let st := sendLog env st "Channels Verified"
  let st := runTasks env tasks.length 1 st tasks
  { st with
    logIx := st.logIx + 1,
    events := st.events ++ [Event.summaryPub st.stats] }

/-! ### Concrete scenarios -/

/-- The end-to-end scenario of the spec: source item 10 is a poll, item 11
is missing, item 12 is a non-poll; every relay succeeds. -/
def env1 : Env where
  source := fun i => if i = 10 then some true else if i = 12 then some false else none
  relay := fun _ => none
  sendRes := fun _ => none
  delays := fun _ => 2
  sink := fun _ => true

/-- The task list parsed from `start: 10`, `end: 12`, `message: hello`. -/
def tasks1 : List Task := [Task.range 10 12, Task.message "hello"]

/-- A world where source items 1, 2 and 3 are polls, relaying item 1
raises an unexpected `RPCError`, and everything else succeeds. -/
def env5 : Env where
  source := fun i => if i ≤ 3 then some true else none
  relay := fun i => if i = 1 then some (Exc.err "RPCError") else none
  sendRes := fun _ => none
  delays := fun _ => 2
  sink := fun _ => true

/-- Two-item range whose first item errors, followed by more work. -/
def tasks5 : List Task := [Task.range 1 2, Task.range 3 3, Task.message "after"]

/-- A world where source item 1 is a poll and relaying it raises
`FloodWaitError` with `seconds = 10`. -/
def env6 : Env where
  source := fun i => if i = 1 then some true else none
  relay := fun i => if i = 1 then some (Exc.flood 10) else none
  sendRes := fun _ => none
  delays := fun _ => 2
  sink := fun _ => true

/-- A throttled range item followed by another task. -/
def tasks6 : List Task := [Task.range 1 1, Task.message "next"]

/-- A world where every call succeeds. -/
def env7 : Env where
  source := fun _ => none
  relay := fun _ => none
  sendRes := fun _ => none
  delays := fun _ => 2
  sink := fun _ => true

/-- Two literal-message tasks back to back. -/
def tasks7 : List Task := [Task.message "a", Task.message "b"]

/-! ### MarkdownV2 escaping (`send_polls.py`) -/

/-- The character class of the regex in `escape_markdown_v2`:
backslash, underscore, asterisk, brackets, parens, tilde, backtick
(code 96), greater-than, hash, plus, minus, equals, pipe, braces
(codes 123 and 125), dot, bang. -/
def mdv2Reserved : List Char :=
  ['\\', '_', '*', '[', ']', '(', ')', '~', Char.ofNat 96, '>', '#',
   '+', '-', '=', '|', Char.ofNat 123, Char.ofNat 125, '.', '!']

/-- `re.sub` with pattern "one reserved character" and replacement
"backslash then the character": every reserved character gets a
backslash inserted in front of it. -/
def escapeChars (l : List Char) : List Char :=
  l.flatMap (fun c => if c ∈ mdv2Reserved then ['\\', c] else [c])

/-- `escape_markdown_v2` from `send_polls.py`. -/
def escape_markdown_v2 (s : String) : String :=
  String.mk (escapeChars s.toList)

/-- Modelled from the spec: the log sink's MarkdownV2 renderer (the
"unescaping" direction, which is not part of this repository — it lives
in the remote platform).  A backslash followed by a reserved character
renders as that character; everything else renders as itself. -/
def renderMdV2 : List Char → List Char
  | [] => []
  | [c] => [c]
  | c :: d :: rest =>
    if c = '\\' then
      if d ∈ mdv2Reserved then d :: renderMdV2 rest
      else c :: renderMdV2 (d :: rest)
    else c :: renderMdV2 (d :: rest)

/-- `true` when every occurrence of a reserved character in the text is
the second half of a backslash-escape pair, i.e. no reserved character
reaches the renderer unescaped. -/
def properlyEscaped : List Char → Bool
  | [] => true
  | [c] => decide (c ∉ mdv2Reserved)
  | c :: d :: rest =>
    if c = '\\' then
      if d ∈ mdv2Reserved then properlyEscaped rest
      else false
    else if c ∈ mdv2Reserved then false
    else properlyEscaped (d :: rest)

/-- The full text payload `log_to_telegram` publishes to the log sink:
the fixed bot-log wrapper (which itself contains markup) around the
escaped message. -/
def log_to_telegram_text (message : String) : String :=
  "🤖 *Bot Log*\n\n" ++ escape_markdown_v2 message

/-! ## Helper lemmas -/

theorem expandRange_of_lt (a b bs : Nat) (h : b < a) : expandRange a b bs = [] := by
  unfold expandRange
  by_cases hbs : 0 < bs
  · have h0 : b + 1 - a = 0 := by omega
    have hdiv : (b + 1 - a + bs - 1) / bs = 0 := Nat.div_eq_of_lt (by omega)
    rw [hdiv]
    simp [expandGo, hbs]
  · simp [hbs]

theorem expandRange_cons (a b bs : Nat) (hab : a ≤ b) (hbs : 0 < bs) :
    expandRange a b bs =
      List.range' a (min (a + bs - 1) b + 1 - a) :: expandRange (a + bs) b bs := by
  have key : (b + 1 - a + bs - 1) / bs = (b + 1 - (a + bs) + bs - 1) / bs + 1 := by
    by_cases hle : b + 1 - a ≤ bs
    · have h1 : b + 1 - (a + bs) = 0 := by omega
      have h2 : (0 + bs - 1) / bs = 0 := Nat.div_eq_of_lt (by omega)
      have h3 : (b + 1 - a + bs - 1) / bs = 1 := by
        apply Nat.div_eq_of_lt_le
        · omega
        · omega
      rw [h1, h2, h3]
    · have h1 : b + 1 - a + bs - 1 = (b + 1 - a - 1) + bs := by omega
      have h2 : b + 1 - (a + bs) + bs - 1 = b + 1 - a - 1 := by omega
      rw [h1, h2, Nat.add_div_right _ hbs]
  unfold expandRange
  rw [if_pos hbs, if_pos hbs, key]
  rfl

theorem expandRange_ne_nil (a b bs : Nat) (hab : a ≤ b) (hbs : 0 < bs) :
    expandRange a b bs ≠ [] := by
  rw [expandRange_cons a b bs hab hbs]
  simp

theorem expandRange_flatten_aux (bs : Nat) (hbs : 0 < bs) :
    ∀ n a b, b + 1 - a ≤ n →
      (expandRange a b bs).flatten = List.range' a (b + 1 - a) := by
  intro n
  induction n with
  | zero =>
    intro a b h
    have hlt : b < a := by omega
    rw [expandRange_of_lt a b bs hlt]
    have h0 : b + 1 - a = 0 := by omega
    rw [h0]
    rfl
  | succ n ih =>
    intro a b h
    by_cases hab : a ≤ b
    · rw [expandRange_cons a b bs hab hbs, List.flatten_cons,
        ih (a + bs) b (by omega)]
      by_cases hend : a + bs ≤ b
      · have hmin : min (a + bs - 1) b = a + bs - 1 := Nat.min_eq_left (by omega)
        have hlen : a + bs - 1 + 1 - a = bs := by omega
        rw [hmin, hlen]
        have happ := List.range'_append_1 a bs (b + 1 - (a + bs))
        rw [happ]
        congr 1
        omega
      · have hmin : min (a + bs - 1) b = b := Nat.min_eq_right (by omega)
        have h0 : b + 1 - (a + bs) = 0 := by omega
        rw [hmin, h0]
        simp
    · rw [expandRange_of_lt a b bs (by omega)]
      have h0 : b + 1 - a = 0 := by omega
      rw [h0]
      rfl

theorem expandRange_flatten (a b bs : Nat) (hbs : 0 < bs) :
    (expandRange a b bs).flatten = List.range' a (b + 1 - a) :=
  expandRange_flatten_aux bs hbs (b + 1 - a) a b le_rfl

theorem expandRange_dropLast_aux (bs : Nat) (hbs : 0 < bs) :
    ∀ n a b, b + 1 - a ≤ n →
      ∀ l ∈ (expandRange a b bs).dropLast, l.length = bs := by
  intro n
  induction n with
  | zero =>
    intro a b h l hl
    rw [expandRange_of_lt a b bs (by omega)] at hl
    simp at hl
  | succ n ih =>
    intro a b h l hl
    by_cases hab : a ≤ b
    · rw [expandRange_cons a b bs hab hbs] at hl
      by_cases hend : a + bs ≤ b
      · rw [List.dropLast_cons_of_ne_nil
          (expandRange_ne_nil (a + bs) b bs hend hbs)] at hl
        rcases List.mem_cons.mp hl with hl | hl
        · subst hl
          have hmin : min (a + bs - 1) b = a + bs - 1 := Nat.min_eq_left (by omega)
          rw [hmin, List.length_range']
          omega
        · exact ih (a + bs) b (by omega) l hl
      · rw [expandRange_of_lt (a + bs) b bs (by omega)] at hl
        simp at hl
    · rw [expandRange_of_lt a b bs (by omega)] at hl
      simp at hl

theorem expandRange_getLast_aux (bs : Nat) (hbs : 0 < bs) :
    ∀ n a b, b + 1 - a ≤ n → a ≤ b →
      ∀ l, (expandRange a b bs).getLast? = some l →
        l.length = if (b + 1 - a) % bs = 0 then bs else (b + 1 - a) % bs := by
  intro n
  induction n with
  | zero =>
    intro a b h hab
    omega
  | succ n ih =>
    intro a b h hab l hl
    rw [expandRange_cons a b bs hab hbs] at hl
    by_cases hend : a + bs ≤ b
    · obtain ⟨y, t, hyt⟩ : ∃ y t, expandRange (a + bs) b bs = y :: t := by
        rcases hrec : expandRange (a + bs) b bs with _ | ⟨y, t⟩
        · exact absurd hrec (expandRange_ne_nil (a + bs) b bs hend hbs)
        · exact ⟨y, t, rfl⟩
      rw [hyt, List.getLast?_cons_cons, ← hyt] at hl
      have hmod : (b + 1 - a) % bs = (b + 1 - (a + bs)) % bs := by
        have heq : b + 1 - a = (b + 1 - (a + bs)) + bs := by omega
        rw [heq, Nat.add_mod_right]
      rw [hmod]
      exact ih (a + bs) b (by omega) hend l hl
    · rw [expandRange_of_lt (a + bs) b bs (by omega)] at hl
      simp only [List.getLast?_singleton, Option.some.injEq] at hl
      subst hl
      have hmin : min (a + bs - 1) b = b := Nat.min_eq_right (by omega)
      rw [hmin, List.length_range']
      rcases Nat.lt_or_ge (b + 1 - a) bs with hlt | hge
      · rw [if_neg (by rw [Nat.mod_eq_of_lt hlt]; omega), Nat.mod_eq_of_lt hlt]
      · have heq : b + 1 - a = bs := by omega
        rw [heq, Nat.mod_self, if_pos rfl]

theorem runValid_summary (env : Env) :
    ∀ items st, ((runValid env st items).1).events.countP Event.isSummary
      = st.events.countP Event.isSummary := by
  intro items
  induction items with
  | nil => intro st; rfl
  | cons m rest ih =>
    intro st
    obtain ⟨mid, isPoll⟩ := m
    cases isPoll with
    | true =>
      cases hr : env.relay mid with
      | some e =>
        simp [runValid, hr, St.emit, List.countP_append, Event.isSummary]
      | none =>
        simp [runValid, hr, ih, St.emit, List.countP_append, Event.isSummary]
    | false =>
      simp [runValid, ih]

theorem runBatches_summary (env : Env) :
    ∀ batches st, ((runBatches env st batches).1).events.countP Event.isSummary
      = st.events.countP Event.isSummary := by
  intro batches
  induction batches with
  | nil => intro st; rfl
  | cons ids rest ih =>
    intro st
    simp only [runBatches]
    set valid := ids.filterMap (fun i => (env.source i).map fun p => (i, p)) with hv
    set st2 := if valid.isEmpty then st.emit (Event.fetch ids)
      else sendLog env (st.emit (Event.fetch ids))
        (batchText (ids.headD 0) (ids.getLastD 0) valid.length) with hst2
    have hsum2 : st2.events.countP Event.isSummary
        = st.events.countP Event.isSummary := by
      rw [hst2]
      split
      · simp [St.emit, List.countP_append, Event.isSummary]
      · simp [St.emit, sendLog, List.countP_append, Event.isSummary]
    rcases hrv : runValid env st2 valid with ⟨st3, exc⟩
    have hsum3 : st3.events.countP Event.isSummary
        = st2.events.countP Event.isSummary := by
      have h := runValid_summary env valid st2
      rw [hrv] at h
      exact h
    cases exc with
    | some e =>
      simpa using hsum3.trans hsum2
    | none =>
      simp only []
      rw [ih]
      simp [St.emit, List.countP_append, Event.isSummary, hsum3, hsum2]
theorem dispatchTask_summary (env : Env) (st : St) (t : Task) :
    ((dispatchTask env st t).1).events.countP Event.isSummary
      = st.events.countP Event.isSummary := by
  cases t with
  | message c =>
    cases hs : env.sendRes c with
    | some e => simp [dispatchTask, hs, St.emit, List.countP_append, Event.isSummary]
    | none => simp [dispatchTask, hs, St.emit, sendLog, List.countP_append, Event.isSummary]
  | range a b =>
    simp only [dispatchTask]
    rw [runBatches_summary]
    simp [sendLog, List.countP_append, Event.isSummary]

theorem handleExc_summary (env : Env) (st : St) (i : Nat) (e : Exc) :
    (handleExc env st i e).events.countP Event.isSummary
      = st.events.countP Event.isSummary := by
  cases e with
  | flood secs =>
    simp [handleExc, sendLog, St.emit, List.countP_append, Event.isSummary]
  | err name =>
    simp [handleExc, sendLog, List.countP_append, Event.isSummary]

theorem runTask_summary (env : Env) (i n : Nat) (t : Task) (st : St) :
    (runTask env i n t st).events.countP Event.isSummary
      = st.events.countP Event.isSummary := by
  simp only [runTask]
  rcases hd : dispatchTask env (sendLog env st (headerText i n t)) t with ⟨st1, exc⟩
  have h1 : st1.events.countP Event.isSummary
      = (sendLog env st (headerText i n t)).events.countP Event.isSummary := by
    have h := dispatchTask_summary env (sendLog env st (headerText i n t)) t
    rw [hd] at h
    exact h
  have h0 : (sendLog env st (headerText i n t)).events.countP Event.isSummary
      = st.events.countP Event.isSummary := by
    simp [sendLog, List.countP_append, Event.isSummary]
  cases exc with
  | none => simpa using h1.trans h0
  | some e =>
    simp only []
    rw [handleExc_summary, h1, h0]

theorem runTasks_summary (env : Env) (n : Nat) :
    ∀ ts i st, (runTasks env n i st ts).events.countP Event.isSummary
      = st.events.countP Event.isSummary := by
  intro ts
  induction ts with
  | nil => intro i st; rfl
  | cons t rest ih =>
    intro i st
    simp only [runTasks]
    rw [ih, runTask_summary]

theorem runValid_mem (env : Env) (e : Event) :
    ∀ items st, e ∈ st.events → e ∈ ((runValid env st items).1).events := by
  intro items
  induction items with
  | nil => intro st h; exact h
  | cons m rest ih =>
    intro st h
    obtain ⟨mid, isPoll⟩ := m
    cases isPoll with
    | true =>
      cases hr : env.relay mid with
      | some ex =>
        simp only [runValid, hr, St.emit]
        simp [h]
      | none =>
        simp only [runValid, hr]
        simp only [if_true]
        apply ih
        simp [St.emit, h]
    | false =>
      simp only [runValid]
      simp only [Bool.false_eq_true, if_false]
      apply ih
      exact h

theorem runBatches_mem (env : Env) (e : Event) :
    ∀ batches st, e ∈ st.events → e ∈ ((runBatches env st batches).1).events := by
  intro batches
  induction batches with
  | nil => intro st h; exact h
  | cons ids rest ih =>
    intro st h
    simp only [runBatches]
    set valid := ids.filterMap (fun i => (env.source i).map fun p => (i, p)) with hv
    set st2 := if valid.isEmpty then st.emit (Event.fetch ids)
      else sendLog env (st.emit (Event.fetch ids))
        (batchText (ids.headD 0) (ids.getLastD 0) valid.length) with hst2
    have hm2 : e ∈ st2.events := by
      rw [hst2]
      split
      · simp [St.emit, h]
      · simp [St.emit, sendLog, h]
    rcases hrv : runValid env st2 valid with ⟨st3, exc⟩
    have hm3 : e ∈ st3.events := by
      have hh := runValid_mem env e valid st2 hm2
      rw [hrv] at hh
      exact hh
    cases exc with
    | some ex => exact hm3
    | none =>
      simp only []
      apply ih
      simp [St.emit, hm3]

theorem dispatchTask_mem (env : Env) (e : Event) (st : St) (t : Task)
    (h : e ∈ st.events) : e ∈ ((dispatchTask env st t).1).events := by
  cases t with
  | message c =>
    cases hs : env.sendRes c with
    | some ex => simp [dispatchTask, hs, St.emit, h]
    | none => simp [dispatchTask, hs, St.emit, sendLog, h]
  | range a b =>
    simp only [dispatchTask]
    apply runBatches_mem
    simp [sendLog, h]

theorem handleExc_mem (env : Env) (e : Event) (st : St) (i : Nat) (ex : Exc)
    (h : e ∈ st.events) : e ∈ (handleExc env st i ex).events := by
  cases ex with
  | flood secs => simp [handleExc, sendLog, St.emit, h]
  | err name => simp [handleExc, sendLog, h]

theorem runTask_mem (env : Env) (e : Event) (i n : Nat) (t : Task) (st : St)
    (h : e ∈ st.events) : e ∈ (runTask env i n t st).events := by
  simp only [runTask]
  rcases hd : dispatchTask env (sendLog env st (headerText i n t)) t with ⟨st1, exc⟩
  have h1 : e ∈ st1.events := by
    have hh := dispatchTask_mem env e (sendLog env st (headerText i n t)) t
      (by simp [sendLog, h])
    rw [hd] at hh
    exact hh
  cases exc with
  | none => exact h1
  | some ex => exact handleExc_mem env e st1 i ex h1

theorem runTasks_mem (env : Env) (e : Event) (n : Nat) :
    ∀ ts i st, e ∈ st.events → e ∈ (runTasks env n i st ts).events := by
  intro ts
  induction ts with
  | nil => intro i st h; exact h
  | cons t rest ih =>
    intro i st h
    exact ih _ _ (runTask_mem env e i n t st h)

theorem runTask_header_mem (env : Env) (i n : Nat) (t : Task) (st : St) :
    Event.logPub (headerText i n t) (env.sink st.logIx) ∈ (runTask env i n t st).events := by
  simp only [runTask]
  rcases hd : dispatchTask env (sendLog env st (headerText i n t)) t with ⟨st1, exc⟩
  have h0 : Event.logPub (headerText i n t) (env.sink st.logIx)
      ∈ (sendLog env st (headerText i n t)).events := by
    simp [sendLog]
  have h1 : Event.logPub (headerText i n t) (env.sink st.logIx) ∈ st1.events := by
    have hh := dispatchTask_mem env _ (sendLog env st (headerText i n t)) t h0
    rw [hd] at hh
    exact hh
  cases exc with
  | none => exact h1
  | some ex => exact handleExc_mem env _ st1 i ex h1
theorem runValid_errors (env : Env) :
    ∀ items st, ((runValid env st items).1).stats.errors = st.stats.errors := by
  intro items
  induction items with
  | nil => intro st; rfl
  | cons m rest ih =>
    intro st
    obtain ⟨mid, isPoll⟩ := m
    cases isPoll with
    | true =>
      cases hr : env.relay mid with
      | some e => simp [runValid, hr, St.emit]
      | none => simp [runValid, hr, ih, St.emit]
    | false => simp [runValid, ih]

theorem runBatches_errors (env : Env) :
    ∀ batches st, ((runBatches env st batches).1).stats.errors = st.stats.errors := by
  intro batches
  induction batches with
  | nil => intro st; rfl
  | cons ids rest ih =>
    intro st
    simp only [runBatches]
    set valid := ids.filterMap (fun i => (env.source i).map fun p => (i, p)) with hv
    set st2 := if valid.isEmpty then st.emit (Event.fetch ids)
      else sendLog env (st.emit (Event.fetch ids))
        (batchText (ids.headD 0) (ids.getLastD 0) valid.length) with hst2
    have he2 : st2.stats.errors = st.stats.errors := by
      rw [hst2]
      split
      · rfl
      · rfl
    rcases hrv : runValid env st2 valid with ⟨st3, exc⟩
    have he3 : st3.stats.errors = st2.stats.errors := by
      have h := runValid_errors env valid st2
      rw [hrv] at h
      exact h
    cases exc with
    | some e => simpa using he3.trans he2
    | none =>
      simp only []
      rw [ih]
      simp [St.emit, he3, he2]

theorem dispatchTask_errors (env : Env) (st : St) (t : Task) :
    ((dispatchTask env st t).1).stats.errors = st.stats.errors := by
  cases t with
  | message c =>
    cases hs : env.sendRes c with
    | some e => simp [dispatchTask, hs, St.emit]
    | none => simp [dispatchTask, hs, St.emit, sendLog]
  | range a b =>
    simp only [dispatchTask]
    rw [runBatches_errors]
    rfl

theorem handleExc_errors (env : Env) (st : St) (i : Nat) (e : Exc) :
    (handleExc env st i e).stats.errors = st.stats.errors + 1 := by
  cases e with
  | flood secs => rfl
  | err name => rfl

theorem runTask_errors (env : Env) (i n : Nat) (t : Task) (st : St) :
    (runTask env i n t st).stats.errors = st.stats.errors ∨
      (runTask env i n t st).stats.errors = st.stats.errors + 1 := by
  simp only [runTask]
  rcases hd : dispatchTask env (sendLog env st (headerText i n t)) t with ⟨st1, exc⟩
  have h1 : st1.stats.errors = st.stats.errors := by
    have h := dispatchTask_errors env (sendLog env st (headerText i n t)) t
    rw [hd] at h
    exact h
  cases exc with
  | none => exact Or.inl h1
  | some e =>
    right
    rw [handleExc_errors, h1]

theorem runTasks_header (env : Env) (n : Nat) :
    ∀ ts i st j t, ts[j]? = some t →
      ∃ ok, Event.logPub (headerText (i + j) n t) ok
        ∈ (runTasks env n i st ts).events := by
  intro ts
  induction ts with
  | nil =>
    intro i st j t h
    simp at h
  | cons t0 rest ih =>
    intro i st j t h
    cases j with
    | zero =>
      simp only [List.getElem?_cons_zero, Option.some.injEq] at h
      subst h
      refine ⟨env.sink st.logIx, ?_⟩
      simp only [runTasks, Nat.add_zero]
      exact runTasks_mem env _ n rest (i + 1) _ (runTask_header_mem env i n t0 st)
    | succ j =>
      have harith : i + (j + 1) = (i + 1) + j := by omega
      rw [harith]
      simp only [List.getElem?_cons_succ] at h
      exact ih (i + 1) (runTask env i n t0 st) j t h

theorem runValid_poll_ok (env : Env) (st : St) (mid : Nat)
    (rest : List (Nat × Bool)) (h : env.relay mid = none) :
    runValid env st ((mid, true) :: rest) =
      runValid env
        { st with
          stats := { st.stats with polls_forwarded := st.stats.polls_forwarded + 1 },
          rngIx := st.rngIx + 1,
          events := st.events ++ [Event.fwd mid, Event.sleep (env.delays st.rngIx)] }
        rest := by
  simp [runValid, h, St.emit]

theorem runValid_poll_exc (env : Env) (st : St) (mid : Nat)
    (rest : List (Nat × Bool)) (e : Exc) (h : env.relay mid = some e) :
    runValid env st ((mid, true) :: rest) =
      ({ st with rngIx := st.rngIx + 1, events := st.events ++ [Event.fwd mid] },
        some e) := by
  simp [runValid, h, St.emit]

theorem dispatchTask_message_ok (env : Env) (st : St) (c : String)
    (h : env.sendRes c = none) :
    dispatchTask env st (Task.message c) =
      ({ st with
          stats := { st.stats with polls_forwarded := st.stats.polls_forwarded + 1 },
          logIx := st.logIx + 1,
          events := st.events
            ++ [Event.sendMsg c, Event.logPub (sentText c) (env.sink st.logIx)] },
        none) := by
  simp [dispatchTask, h, St.emit, sendLog]

theorem handleExc_flood_eq (env : Env) (st : St) (i secs : Nat) :
    handleExc env st i (Exc.flood secs) =
      { st with
        stats := { st.stats with errors := st.stats.errors + 1 },
        logIx := st.logIx + 1,
        events := st.events
          ++ [Event.logPub (floodText (secs + 5)) (env.sink st.logIx),
              Event.sleep ((secs + 5 : Nat) : Rat)] } := by
  simp [handleExc, sendLog, St.emit]

theorem runTask_exc (env : Env) (i n : Nat) (t : Task) (st : St) (st1 : St) (e : Exc)
    (hd : dispatchTask env (sendLog env st (headerText i n t)) t = (st1, some e)) :
    runTask env i n t st = handleExc env st1 i e := by
  simp [runTask, hd]

theorem escapeChars_eq_nil {l : List Char} (h : escapeChars l = []) : l = [] := by
  cases l with
  | nil => rfl
  | cons c rest =>
    exfalso
    by_cases hc : c ∈ mdv2Reserved <;> simp [escapeChars, hc] at h

theorem renderMdV2_escapeChars : ∀ l : List Char, renderMdV2 (escapeChars l) = l := by
  intro l
  induction l with
  | nil => rfl
  | cons c rest ih =>
    by_cases hc : c ∈ mdv2Reserved
    · have he : escapeChars (c :: rest) = '\\' :: c :: escapeChars rest := by
        simp [escapeChars, hc]
      rw [he]
      simp [renderMdV2, hc, ih]
    · have he : escapeChars (c :: rest) = c :: escapeChars rest := by
        simp [escapeChars, hc]
      rw [he]
      have hcb : c ≠ '\\' := by
        intro hceq
        rw [hceq] at hc
        exact hc (by simp [mdv2Reserved])
      cases hX : escapeChars rest with
      | nil =>
        have hrest : rest = [] := escapeChars_eq_nil hX
        subst hrest
        rfl
      | cons d X2 =>
        simp only [renderMdV2, if_neg hcb]
        rw [← hX, ih]

theorem properlyEscaped_escapeChars : ∀ l : List Char, properlyEscaped (escapeChars l) = true := by
  intro l
  induction l with
  | nil => rfl
  | cons c rest ih =>
    by_cases hc : c ∈ mdv2Reserved
    · have he : escapeChars (c :: rest) = '\\' :: c :: escapeChars rest := by
        simp [escapeChars, hc]
      rw [he]
      simp [properlyEscaped, hc, ih]
    · have he : escapeChars (c :: rest) = c :: escapeChars rest := by
        simp [escapeChars, hc]
      rw [he]
      have hcb : c ≠ '\\' := by
        intro hceq
        rw [hceq] at hc
        exact hc (by simp [mdv2Reserved])
      cases hX : escapeChars rest with
      | nil =>
        simp [properlyEscaped, hc]
      | cons d X2 =>
        simp only [properlyEscaped, if_neg hcb, if_neg hc]
        rw [← hX, ih]

theorem scanActs_error_from_parse_id :
    ∀ acts (p : Option Nat) (e : String), scanActs p acts = Except.error e →
      ∃ v, parse_id v = Except.error e ∧
        (LineAct.start v ∈ acts ∨ LineAct.endKey v ∈ acts) := by
  intro acts
  induction acts with
  | nil =>
    intro p e h
    simp [scanActs] at h
  | cons a rest ih =>
    intro p e h
    cases a with
    | skip =>
      obtain ⟨v, hv, hmem⟩ := ih p e (by simpa [scanActs] using h)
      refine ⟨v, hv, ?_⟩
      rcases hmem with h1 | h1
      · exact Or.inl (List.mem_cons_of_mem _ h1)
      · exact Or.inr (List.mem_cons_of_mem _ h1)
    | message c =>
      rw [scanActs] at h
      cases hs : scanActs p rest with
      | error e2 =>
        rw [hs] at h
        cases h
        obtain ⟨v, hv, hmem⟩ := ih p e hs
        refine ⟨v, hv, ?_⟩
        rcases hmem with h1 | h1
        · exact Or.inl (List.mem_cons_of_mem _ h1)
        · exact Or.inr (List.mem_cons_of_mem _ h1)
      | ok ts =>
        rw [hs] at h
        cases h
    | start v =>
      rw [scanActs] at h
      cases hp : parse_id v with
      | error e2 =>
        rw [hp] at h
        cases h
        exact ⟨v, hp, Or.inl (List.mem_cons_self _ _)⟩
      | ok s =>
        rw [hp] at h
        obtain ⟨w, hw, hmem⟩ := ih (some s) e h
        refine ⟨w, hw, ?_⟩
        rcases hmem with h1 | h1
        · exact Or.inl (List.mem_cons_of_mem _ h1)
        · exact Or.inr (List.mem_cons_of_mem _ h1)
    | endKey v =>
      cases p with
      | none =>
        rw [scanActs] at h
        obtain ⟨w, hw, hmem⟩ := ih none e h
        refine ⟨w, hw, ?_⟩
        rcases hmem with h1 | h1
        · exact Or.inl (List.mem_cons_of_mem _ h1)
        · exact Or.inr (List.mem_cons_of_mem _ h1)
      | some s =>
        rw [scanActs] at h
        cases hp : parse_id v with
        | error e2 =>
          rw [hp] at h
          cases h
          exact ⟨v, hp, Or.inr (List.mem_cons_self _ _)⟩
        | ok eid =>
          rw [hp] at h
          cases hs : scanActs none rest with
          | error e2 =>
            rw [hs] at h
            cases h
            obtain ⟨w, hw, hmem⟩ := ih none e hs
            refine ⟨w, hw, ?_⟩
            rcases hmem with h1 | h1
            · exact Or.inl (List.mem_cons_of_mem _ h1)
            · exact Or.inr (List.mem_cons_of_mem _ h1)
          | ok ts =>
            rw [hs] at h
            cases h


/-! ## Claim theorems -/

/-- C1 (corrected): for the task file `start: 10` / `end: 12` /
`message: hello` against a source where item 10 is a poll, item 11 is
missing and item 12 is a non-poll, the run delivers item 10 and the
literal message, and ends with delivered = 2 and errors = 0 — but the
missing item 11 is silently dropped by the `valid_messages` filter, so
the skip counter reads 1, not the 2 the claim asserts (there is no
not-found outcome at all). -/
theorem C1_counterexample :
    parseTasks ["start: 10", "end: 12", "message: hello"] = Except.ok tasks1
    ∧ (runMain env1 tasks1).stats.polls_forwarded = 2
    ∧ (runMain env1 tasks1).stats.errors = 0
    ∧ (runMain env1 tasks1).stats.non_polls_skipped = 1
    ∧ ¬ (runMain env1 tasks1).stats.non_polls_skipped = 2 := by
  refine ⟨rfl, ?_, ?_, ?_, ?_⟩ <;> decide

/-- C1 (amended): the same scenario delivers item 10, silently drops the
missing item 11 (no event references it and no counter records it),
counts item 12 as a non-poll skip, then delivers `hello`; the final
counters read delivered = 2, skipped = 1, errors = 0. -/
theorem C1_amended_scenario :
    parseTasks ["start: 10", "end: 12", "message: hello"] = Except.ok tasks1
    ∧ (runMain env1 tasks1).stats = ⟨2, 1, 0⟩
    ∧ (runMain env1 tasks1).events.filter Event.isContent
        = [Event.fetch [10, 11, 12], Event.fwd 10, Event.sendMsg "hello"]
    ∧ Event.fwd 11 ∉ (runMain env1 tasks1).events := by
  refine ⟨rfl, ?_, ?_, ?_⟩ <;> decide

/-- C2 (confirmed): for `start ≤ end` and a positive batch size, the
expansion's batches concatenate to exactly the identifiers
`start, start + 1, …, end`; every batch but the last has exactly
`batchSize` elements; the last batch has `(end - start + 1) % batchSize`
elements, or `batchSize` when the count divides evenly; and at least one
batch is produced. -/
theorem C2_range_expansion (a b bs : Nat) (hab : a ≤ b) (hbs : 0 < bs) :
    (expandRange a b bs).flatten = List.range' a (b + 1 - a)
    ∧ (∀ l ∈ (expandRange a b bs).dropLast, l.length = bs)
    ∧ (∀ l, (expandRange a b bs).getLast? = some l →
        l.length = if (b + 1 - a) % bs = 0 then bs else (b + 1 - a) % bs)
    ∧ expandRange a b bs ≠ [] :=
  ⟨expandRange_flatten a b bs hbs,
   expandRange_dropLast_aux bs hbs (b + 1 - a) a b le_rfl,
   fun l hl => expandRange_getLast_aux bs hbs (b + 1 - a) a b le_rfl hab l hl,
   expandRange_ne_nil a b bs hab hbs⟩

/-- C2 witness: the expansion of the range 3–7 with batch size 2. -/
theorem C2_range_expansion_witness :
    3 ≤ 7 ∧ 0 < 2 ∧
      ((expandRange 3 7 2).flatten = List.range' 3 (7 + 1 - 3)
      ∧ (∀ l ∈ (expandRange 3 7 2).dropLast, l.length = 2)
      ∧ (∀ l, (expandRange 3 7 2).getLast? = some l →
          l.length = if (7 + 1 - 3) % 2 = 0 then 2 else (7 + 1 - 3) % 2)
      ∧ expandRange 3 7 2 ≠ []) :=
  ⟨by decide, by decide, C2_range_expansion 3 7 2 (by decide) (by decide)⟩

/-- C3 (corrected): a fatal parse abort is not equivalent to the
descriptor sequence being empty — a `start` line (or an `end` line with
a pending start) whose identifier value `parse_id` rejects also aborts
the whole parse, even when other lines already produced descriptors. -/
theorem C3_counterexample :
    parseTasks ["message: hi"] = Except.ok [Task.message "hi"]
    ∧ parseTasks ["message: hi", "start: abc"]
        = Except.error "Invalid format for message ID: abc" :=
  ⟨rfl, rfl⟩

/-- C3 (amended): parsing succeeds exactly when the line scan raises no
identifier-format error and yields at least one descriptor; and every
error the line scan can produce originates from a `parse_id` failure on
the value of some `start` or `end` line. -/
theorem C3_amended_fatal_conditions :
    (∀ lines, (∃ ts, parseTasks lines = Except.ok ts) ↔
      (∃ ts, scanActs none (lines.map classifyLine) = Except.ok ts ∧ ts ≠ []))
    ∧ (∀ acts (p : Option Nat) e, scanActs p acts = Except.error e →
        ∃ v, parse_id v = Except.error e ∧
          (LineAct.start v ∈ acts ∨ LineAct.endKey v ∈ acts)) := by
  constructor
  · intro lines
    cases hs : scanActs none (lines.map classifyLine) with
    | error e => simp [parseTasks, hs]
    | ok ts =>
      by_cases hts : ts = []
      · subst hts
        simp [parseTasks, hs]
      · simp [parseTasks, hs, List.isEmpty_iff, hts]
  · exact fun acts p e h => scanActs_error_from_parse_id acts p e h

/-- C3 witness: the scan of the single line `start: abc` errors, and the
error indeed originates from `parse_id` on a `start` value. -/
theorem C3_amended_fatal_conditions_witness :
    scanActs none [LineAct.start "abc"]
        = Except.error "Invalid format for message ID: abc"
    ∧ ∃ v, parse_id v = Except.error "Invalid format for message ID: abc"
        ∧ (LineAct.start v ∈ [LineAct.start "abc"]
            ∨ LineAct.endKey v ∈ [LineAct.start "abc"]) :=
  ⟨rfl, C3_amended_fatal_conditions.2 [LineAct.start "abc"] none _ rfl⟩

/-- C4 (corrected): the parser performs no ordering check, so the file
`start: 5` / `end: 3` produces a Range descriptor with start > end,
violating the claimed invariant. -/
theorem C4_counterexample :
    parseTasks ["start: 5", "end: 3"] = Except.ok [Task.range 5 3]
    ∧ ¬ (5 ≤ 3) :=
  ⟨rfl, by decide⟩

/-- C4 (amended): Range descriptors carry the parsed start and end values
unvalidated; a descriptor with start > end is possible, and such a range
expands to zero batches (its batch loop never runs). -/
theorem C4_amended_empty_expansion (a b bs : Nat) (h : b < a) :
    expandRange a b bs = [] :=
  expandRange_of_lt a b bs h

/-- C4 witness: the inverted range 5–3 expands to no batches. -/
theorem C4_amended_empty_expansion_witness :
    3 < 5 ∧ expandRange 5 3 100 = [] :=
  ⟨by decide, C4_amended_empty_expansion 5 3 100 (by decide)⟩



/-- C5 (corrected): error handling is per task, not per item — when the
relay of item 1 of the range 1–2 raises an unexpected error, item 2 (a
present, relayable poll) is never attempted; the run records one error
and continues with the NEXT descriptor (item 3 and the literal message
are dispatched). -/
theorem C5_counterexample :
    env5.relay 1 = some (Exc.err "RPCError")
    ∧ env5.source 2 = some true
    ∧ env5.relay 2 = none
    ∧ Event.fwd 1 ∈ (runMain env5 tasks5).events
    ∧ Event.fwd 2 ∉ (runMain env5 tasks5).events
    ∧ Event.fwd 3 ∈ (runMain env5 tasks5).events
    ∧ Event.sendMsg "after" ∈ (runMain env5 tasks5).events
    ∧ (runMain env5 tasks5).stats.errors = 1 := by
  refine ⟨rfl, rfl, rfl, ?_, ?_, ?_, ?_, ?_⟩ <;> decide

/-- C5 (amended): an unexpected relay error is caught at task
granularity: the faulting item's exception immediately aborts the rest
of its own descriptor (the remaining items are returned unprocessed),
the handler records exactly one error in the counter, each task changes
the error counter by at most one, and every descriptor in the queue is
still reached (its header is logged) no matter what earlier tasks did. -/
theorem C5_amended_task_isolation (env : Env) :
    (∀ st mid (rest : List (Nat × Bool)) (e : Exc), env.relay mid = some e →
      runValid env st ((mid, true) :: rest)
        = ({ st with
              rngIx := st.rngIx + 1,
              events := st.events ++ [Event.fwd mid] }, some e))
    ∧ (∀ st i name, (handleExc env st i (Exc.err name)).stats.errors
        = st.stats.errors + 1)
    ∧ (∀ i n t st, (runTask env i n t st).stats.errors = st.stats.errors
        ∨ (runTask env i n t st).stats.errors = st.stats.errors + 1)
    ∧ (∀ n ts i st j t, ts[j]? = some t →
        ∃ ok, Event.logPub (headerText (i + j) n t) ok
          ∈ (runTasks env n i st ts).events) :=
  ⟨fun st mid rest e h => runValid_poll_exc env st mid rest e h,
   fun st i name => handleExc_errors env st i (Exc.err name),
   fun i n t st => runTask_errors env i n t st,
   fun n ts i st j t h => runTasks_header env n ts i st j t h⟩

/-- C5 witness: in the faulting scenario the third task's header is
still logged, and the faulting item aborts its descriptor immediately. -/
theorem C5_amended_task_isolation_witness :
    tasks5[2]? = some (Task.message "after")
    ∧ (∃ ok, Event.logPub (headerText (1 + 2) 3 (Task.message "after")) ok
        ∈ (runTasks env5 3 1 initSt tasks5).events)
    ∧ env5.relay 1 = some (Exc.err "RPCError")
    ∧ runValid env5 initSt [(1, true)]
        = ({ initSt with
              rngIx := initSt.rngIx + 1,
              events := initSt.events ++ [Event.fwd 1] }, some (Exc.err "RPCError")) :=
  ⟨by decide,
   (C5_amended_task_isolation env5).2.2.2 3 tasks5 1 initSt 2 (Task.message "after")
     (by decide),
   rfl,
   (C5_amended_task_isolation env5).1 initSt 1 [] (Exc.err "RPCError") rfl⟩

/-- C6 (corrected): on a FloodWaitError carrying 10 seconds, the
dispatcher does sleep 10 + 5 seconds and does not count the throttled
item as delivered, but the very next remote call after the throttled
relay is issued BEFORE the suspension: the warning publish to the log
sink (trace position 8) precedes the 15-second sleep (position 9). -/
theorem C6_counterexample :
    env6.relay 1 = some (Exc.flood 10)
    ∧ (runMain env6 tasks6).events[7]? = some (Event.fwd 1)
    ∧ ((runMain env6 tasks6).events[8]?.map Event.isRemoteCall) = some true
    ∧ ((runMain env6 tasks6).events[8]?.map Event.isSleep) = some false
    ∧ (runMain env6 tasks6).events[9]? = some (Event.sleep 15) := by
  refine ⟨rfl, ?_, ?_, ?_, ?_⟩ <;> decide

/-- C6 (amended): a throttled relay aborts its task immediately without
counting the item as delivered; the flood handler then increments the
error counter, publishes one warning to the log sink, and ends the task
with a sleep of `retryAfterSeconds + 5` — so every *later* remote call
of the run comes after that suspension, while that single warning
publish is issued before it. -/
theorem C6_amended_flood_backoff (env : Env) :
    (∀ st mid (rest : List (Nat × Bool)) secs,
      env.relay mid = some (Exc.flood secs) →
        runValid env st ((mid, true) :: rest)
          = ({ st with
                rngIx := st.rngIx + 1,
                events := st.events ++ [Event.fwd mid] }, some (Exc.flood secs)))
    ∧ (∀ st i secs, handleExc env st i (Exc.flood secs)
        = { st with
            stats := { st.stats with errors := st.stats.errors + 1 },
            logIx := st.logIx + 1,
            events := st.events
              ++ [Event.logPub (floodText (secs + 5)) (env.sink st.logIx),
                  Event.sleep ((secs + 5 : Nat) : Rat)] })
    ∧ (∀ i n t st st1 secs,
        dispatchTask env (sendLog env st (headerText i n t)) t
            = (st1, some (Exc.flood secs)) →
          runTask env i n t st = handleExc env st1 i (Exc.flood secs)) :=
  ⟨fun st mid rest secs h => runValid_poll_exc env st mid rest (Exc.flood secs) h,
   fun st i secs => handleExc_flood_eq env st i secs,
   fun i n t st st1 secs hd => runTask_exc env i n t st st1 (Exc.flood secs) hd⟩

/-- C6 witness: the throttled relay of item 1 aborts with the flood
exception and without a delivery count, and the handler appends exactly
the warning publish and the 15-second sleep. -/
theorem C6_amended_flood_backoff_witness :
    env6.relay 1 = some (Exc.flood 10)
    ∧ runValid env6 initSt [(1, true)]
        = ({ initSt with
              rngIx := initSt.rngIx + 1,
              events := initSt.events ++ [Event.fwd 1] }, some (Exc.flood 10))
    ∧ handleExc env6 initSt 1 (Exc.flood 10)
        = { initSt with
            stats := { initSt.stats with errors := initSt.stats.errors + 1 },
            logIx := initSt.logIx + 1,
            events := initSt.events
              ++ [Event.logPub (floodText (10 + 5)) (env6.sink initSt.logIx),
                  Event.sleep ((10 + 5 : Nat) : Rat)] } :=
  ⟨rfl,
   (C6_amended_flood_backoff env6).1 initSt 1 [] 10 rfl,
   (C6_amended_flood_backoff env6).2.1 initSt 1 10⟩

/-- C7 (corrected): the run of two literal-message tasks contains several
remote calls and not a single sleep, so two successive remote calls with
zero elapsed delay do occur — the minimum-delay discipline only governs
successfully forwarded polls. -/
theorem C7_counterexample :
    (runMain env7 tasks7).events.countP Event.isSleep = 0
    ∧ Event.sendMsg "a" ∈ (runMain env7 tasks7).events
    ∧ Event.sendMsg "b" ∈ (runMain env7 tasks7).events
    ∧ 2 ≤ (runMain env7 tasks7).events.countP Event.isRemoteCall := by
  refine ⟨?_, ?_, ?_, ?_⟩ <;> decide

/-- C7 (amended): a delay drawn from the RNG stream is slept immediately
after each successfully forwarded poll (and is at least the configured
minimum whenever the draw is in range), but literal-message sends are
issued with no enforced delay at all, so consecutive remote calls with
zero elapsed delay between them are possible. -/
theorem C7_amended_delays (env : Env) (st : St) :
    (∀ mid (rest : List (Nat × Bool)), env.relay mid = none →
      runValid env st ((mid, true) :: rest)
        = runValid env
            { st with
              stats := { st.stats with
                polls_forwarded := st.stats.polls_forwarded + 1 },
              rngIx := st.rngIx + 1,
              events := st.events
                ++ [Event.fwd mid, Event.sleep (env.delays st.rngIx)] }
            rest)
    ∧ ((∀ k, MIN_DELAY_SECONDS ≤ env.delays k) →
        MIN_DELAY_SECONDS ≤ env.delays st.rngIx)
    ∧ (∀ c, env.sendRes c = none →
        dispatchTask env st (Task.message c)
          = ({ st with
                stats := { st.stats with
                  polls_forwarded := st.stats.polls_forwarded + 1 },
                logIx := st.logIx + 1,
                events := st.events
                  ++ [Event.sendMsg c,
                      Event.logPub (sentText c) (env.sink st.logIx)] },
              none)) :=
  ⟨fun mid rest h => runValid_poll_ok env st mid rest h,
   fun h => h st.rngIx,
   fun c h => dispatchTask_message_ok env st c h⟩

/-- C7 witness: in the all-success world the delivered poll is followed
by the drawn sleep, and a literal-message dispatch emits no sleep. -/
theorem C7_amended_delays_witness :
    env7.relay 1 = none
    ∧ runValid env7 initSt [(1, true)]
        = runValid env7
            { initSt with
              stats := { initSt.stats with
                polls_forwarded := initSt.stats.polls_forwarded + 1 },
              rngIx := initSt.rngIx + 1,
              events := initSt.events
                ++ [Event.fwd 1, Event.sleep (env7.delays initSt.rngIx)] }
            []
    ∧ env7.sendRes "a" = none
    ∧ dispatchTask env7 initSt (Task.message "a")
        = ({ initSt with
              stats := { initSt.stats with
                polls_forwarded := initSt.stats.polls_forwarded + 1 },
              logIx := initSt.logIx + 1,
              events := initSt.events
                ++ [Event.sendMsg "a",
                    Event.logPub (sentText "a") (env7.sink initSt.logIx)] },
            none) :=
  ⟨rfl,
   (C7_amended_delays env7 initSt).1 1 [] rfl,
   rfl,
   (C7_amended_delays env7 initSt).2.2 "a" rfl⟩

/-- C8 (corrected): escaped dynamic content round-trips through the
MarkdownV2 renderer, but the claim that EVERY published log payload has
every reserved character escaped is false: the fixed wrapper of the
poll-sender's log payload deliberately contains unescaped asterisks. -/
theorem C8_counterexample :
    properlyEscaped (log_to_telegram_text "hi").toList = false
    ∧ '*' ∈ mdv2Reserved
    ∧ '*' ∈ (log_to_telegram_text "hi").toList := by
  refine ⟨?_, ?_, ?_⟩ <;> decide

/-- C8 (amended): the dynamic message content interpolated into log-sink
payloads is escaped by `escape_markdown_v2`, whose output contains no
unescaped reserved character, and rendering the escaped text through the
sink's MarkdownV2 renderer reproduces the original text exactly, for
every input string; the fixed wrapper text around it keeps its
intentional markup unescaped. -/
theorem C8_amended_roundtrip :
    (∀ s : String, renderMdV2 (escape_markdown_v2 s).toList = s.toList)
    ∧ (∀ l : List Char, properlyEscaped (escapeChars l) = true) :=
  ⟨fun s => renderMdV2_escapeChars s.toList,
   fun l => properlyEscaped_escapeChars l⟩

/-- C9 (confirmed): once the channels are resolved, the run controller
always reaches the final summary: for every remote world (including
worlds where every relay raises and every log publish fails) and every
task list, the trace contains exactly one run-completion report, it is
the last event of the run, and it carries the final counters. -/
theorem C9_summary_always (env : Env) (ts : List Task) :
    (runMain env ts).events.countP Event.isSummary = 1
    ∧ (runMain env ts).events.getLast?
        = some (Event.summaryPub (runMain env ts).stats) := by
  constructor
  · simp only [runMain]
    rw [List.countP_append, runTasks_summary]
    simp [sendLog, initSt, List.countP_append, Event.isSummary]
  · simp only [runMain]
    exact List.getLast?_concat _

/-- C10 (confirmed): the pending range start is governed only by `start`
and matching `end` lines — a `message` line emits its descriptor and
passes the pending start through unchanged, a `start` line overwrites
whatever start was pending, an `end` line with a pending start closes it
and clears the pending state, and skipped lines change nothing; hence
`start: 1`, `start: 5`, `message: x`, `end: 9` yields exactly the
Message "x" followed by Range 5–9, the first start contributing to no
descriptor. -/
theorem C10_pending_start_discipline :
    (∀ (p : Option Nat) r c, scanActs p (LineAct.message c :: r)
        = (scanActs p r).map (fun ts => Task.message c :: ts))
    ∧ (∀ (p : Option Nat) r v, scanActs p (LineAct.start v :: r)
        = (parse_id v).bind (fun s => scanActs (some s) r))
    ∧ (∀ s r v, scanActs (some s) (LineAct.endKey v :: r)
        = (parse_id v).bind (fun e =>
            (scanActs none r).map (fun ts => Task.range s e :: ts)))
    ∧ (∀ (p : Option Nat) r, scanActs p (LineAct.skip :: r) = scanActs p r)
    ∧ parseTasks ["start: 1", "start: 5", "message: x", "end: 9"]
        = Except.ok [Task.message "x", Task.range 5 9] :=
  ⟨fun _ _ _ => rfl, fun _ _ _ => rfl, fun _ _ _ => rfl, fun _ _ => rfl, rfl⟩


end MediX
